import Mathlib

/-!
Verification of the `type-store` crate (`src/lib.rs`).

The crate is a heterogeneous, type-keyed container:

* `TypeIdHasher` — a `Hasher` whose `write` is `unimplemented!` and whose
  `write_u64` stores its argument verbatim, so that `finish` returns the
  single `u64` it was fed (the identity hash for `TypeId` tokens).
* `TypeStore` — a `HashMap<TypeId, Box<dyn Any>, BuildHasherDefault<TypeIdHasher>>`
  with operations `new`, `insert`, `get`, `get_mut`, `remove`, `contains`,
  `clear`, `is_empty`, each keyed by `TypeId::of::<T>()` and guarded by a
  checked `Any` downcast on the read/write/remove paths.

The embedding below is parameterized by a `TypeUniverse`: an abstract
collection of concrete Rust types (`Code`), their carriers (`interp`), and
the process-stable 64-bit type-identity tokens (`typeIdOf`), which Rust
guarantees to be injective per process (two `TypeId`s are equal iff they
denote the same concrete type).  `Box<dyn Any>` is embedded as a value
paired with its runtime type tag, and the `HashMap` as an association list
keyed by the token, with the exact first-match replace/lookup/remove
semantics of a hash map whose keys are unique in every reachable state.
-/

namespace TypeStoreModel

/-- A universe of concrete Rust types: codes for the types, the carrier of
each type, and the process-stable `TypeId` token of each type.  `token_inj`
is Rust's guarantee that `TypeId::of::<T>() == TypeId::of::<U>()` iff
`T` and `U` are the same concrete type. -/
structure TypeUniverse where
  Code : Type
  interp : Code → Type
  typeIdOf : Code → Nat
  token_inj : ∀ a b : Code, typeIdOf a = typeIdOf b → a = b

/-- `Box<dyn Any>`: an owned value together with its runtime type tag. -/
structure Boxed (U : TypeUniverse) where
  code : U.Code
  val : U.interp code

/-- `Any::type_id` of the boxed value. -/
def Boxed.typeId {U : TypeUniverse} (b : Boxed U) : Nat :=
  U.typeIdOf b.code

/-- The checked downcast of `dyn Any` (`downcast_ref` / `downcast_mut` /
`Box::downcast` all perform the same runtime check): compare the stored
value's `TypeId` with `TypeId::of::<T>()` and return the typed view on
success, `None` on mismatch. -/
def Boxed.downcast {U : TypeUniverse} (b : Boxed U) (c : U.Code) : Option (U.interp c) :=
  if h : U.typeIdOf b.code = U.typeIdOf c then some (U.token_inj b.code c h ▸ b.val) else none

/-- `HashMap::insert` on the association-list model: replace the first
entry with the given key, or append a fresh entry if the key is absent. -/
def listInsert {α : Type} (k : Nat) (v : α) : List (Nat × α) → List (Nat × α)
  | [] => [(k, v)]
  | (k₂, v₂) :: rest => if k = k₂ then (k, v) :: rest else (k₂, v₂) :: listInsert k v rest

/-- `HashMap::get`: the value of the first entry with the given key. -/
def listLookup {α : Type} (k : Nat) : List (Nat × α) → Option α
  | [] => none
  | (k₂, v) :: rest => if k = k₂ then some v else listLookup k rest

/-- `HashMap::remove`: the removed value (if any) together with the map
with the first entry for the key deleted. -/
def listRemove {α : Type} (k : Nat) : List (Nat × α) → Option α × List (Nat × α)
  | [] => (none, [])
  | (k₂, v) :: rest =>
    if k = k₂ then (some v, rest)
    else
      let r := listRemove k rest
      (r.1, (k₂, v) :: r.2)

/-- In-place update of the value of the first entry with the given key
(the effect of writing through a `&mut` reference obtained from
`HashMap::get_mut`); a missing key leaves the map untouched. -/
def listUpdate {α : Type} (k : Nat) (f : α → α) : List (Nat × α) → List (Nat × α)
  | [] => []
  | (k₂, v) :: rest => if k = k₂ then (k₂, f v) :: rest else (k₂, v) :: listUpdate k f rest

/-- `HashMap::contains_key`. -/
def listContainsKey {α : Type} (k : Nat) (l : List (Nat × α)) : Bool :=
  l.any (fun p => p.1 == k)

/-- The number of entries stored under a given key. -/
def keyCount {α : Type} (k : Nat) (l : List (Nat × α)) : Nat :=
  l.countP (fun p => p.1 == k)

/-- The `TypeStore`: a map from `TypeId` token to type-erased boxed value. -/
structure TypeStore (U : TypeUniverse) where
  map : List (Nat × Boxed U)

/-- `TypeStore::new`: the empty store. -/
def TypeStore.new {U : TypeUniverse} : TypeStore U :=
  ⟨[]⟩

/-- `TypeStore::insert::<T>(val)`:
`self.map.insert(TypeId::of::<T>(), Box::new(val))`. -/
def TypeStore.insert {U : TypeUniverse} (s : TypeStore U) (c : U.Code) (v : U.interp c) :
    TypeStore U :=
  ⟨listInsert (U.typeIdOf c) (Boxed.mk c v) s.map⟩

/-- `TypeStore::get::<T>()`:
`self.map.get(&TypeId::of::<T>()).and_then(|v| v.downcast_ref::<T>())`. -/
def TypeStore.get {U : TypeUniverse} (s : TypeStore U) (c : U.Code) : Option (U.interp c) :=
  (listLookup (U.typeIdOf c) s.map).bind (fun b => b.downcast c)

/-- `TypeStore::get_mut::<T>()`:
`self.map.get_mut(&TypeId::of::<T>()).and_then(|v| v.downcast_mut::<T>())`.
The returned value is the one the `&mut T` reference points at; writing
through that reference is modeled by `TypeStore.writeMut`. -/
def TypeStore.getMut {U : TypeUniverse} (s : TypeStore U) (c : U.Code) : Option (U.interp c) :=
  (listLookup (U.typeIdOf c) s.map).bind (fun b => b.downcast c)

/-- Writing a value `w` through the `&mut T` reference returned by
`get_mut::<T>()`: the slot that `get_mut` located (first entry for the
token whose downcast to `T` succeeds) has its boxed contents overwritten
with `w`; if `get_mut` returned `None`, no reference exists and the store
is untouched. -/
def TypeStore.writeMut {U : TypeUniverse} (s : TypeStore U) (c : U.Code) (w : U.interp c) :
    TypeStore U :=
  ⟨listUpdate (U.typeIdOf c)
    (fun b => if (b.downcast c).isSome then Boxed.mk c w else b) s.map⟩

/-- `TypeStore::remove::<T>()`:
`self.map.remove(&TypeId::of::<T>()).and_then(|v| v.downcast::<T>().ok()).map(|v| *v)`,
returned together with the store after the removal. -/
def TypeStore.remove {U : TypeUniverse} (s : TypeStore U) (c : U.Code) :
    Option (U.interp c) × TypeStore U :=
  let r := listRemove (U.typeIdOf c) s.map
  (r.1.bind (fun b => b.downcast c), ⟨r.2⟩)

/-- `TypeStore::contains::<T>()`: `self.map.contains_key(&TypeId::of::<T>())`. -/
def TypeStore.contains {U : TypeUniverse} (s : TypeStore U) (c : U.Code) : Bool :=
  listContainsKey (U.typeIdOf c) s.map

/-- `TypeStore::clear()`: `self.map.clear()`. -/
def TypeStore.clear {U : TypeUniverse} (s : TypeStore U) : TypeStore U :=
  ⟨[]⟩

/-- `TypeStore::is_empty()`: `self.map.is_empty()`. -/
def TypeStore.isEmpty {U : TypeUniverse} (s : TypeStore U) : Bool :=
  s.map.isEmpty

/-- The number of slots the store holds for the concrete type `c`. -/
def TypeStore.slotCount {U : TypeUniverse} (s : TypeStore U) (c : U.Code) : Nat :=
  keyCount (U.typeIdOf c) s.map

/-- Key uniqueness: every token occurs at most once in the map, as in any
`HashMap` state. -/
def TypeStore.WF {U : TypeUniverse} (s : TypeStore U) : Prop :=
  ∀ k : Nat, keyCount k s.map ≤ 1

/-- The tagging invariant: every entry is stored under the token of its
boxed value's own concrete type (slots are only ever created by
`insert::<T>`, which stores a `T` under `TypeId::of::<T>()`). -/
def InvMap {U : TypeUniverse} (l : List (Nat × Boxed U)) : Prop :=
  ∀ p ∈ l, p.1 = U.typeIdOf p.2.code

/-- The tagging invariant for a store. -/
def TypeStore.Inv {U : TypeUniverse} (s : TypeStore U) : Prop :=
  InvMap s.map

/-- The stores reachable through the public API (`new`, `insert`, `remove`,
`clear`, and writes through `get_mut` references; `get`, `contains`,
`is_empty` do not change the store). -/
inductive Reachable {U : TypeUniverse} : TypeStore U → Prop where
  | new : Reachable TypeStore.new
  | insert {s : TypeStore U} (c : U.Code) (v : U.interp c) :
      Reachable s → Reachable (s.insert c v)
  | remove {s : TypeStore U} (c : U.Code) :
      Reachable s → Reachable (s.remove c).2
  | clear {s : TypeStore U} :
      Reachable s → Reachable s.clear
  | writeMut {s : TypeStore U} (c : U.Code) (w : U.interp c) :
      Reachable s → Reachable (s.writeMut c w)

/-- The state of `TypeIdHasher`: its single `u64` accumulator field. -/
structure TypeIdHasher where
  state : Nat

/-- `TypeIdHasher::default()`: accumulator `0`. -/
def TypeIdHasher.default : TypeIdHasher :=
  ⟨0⟩

/-- `Hasher::write(&mut self, bytes)`: `unimplemented!` — fed arbitrary
byte data, the hasher fails fatally instead of hashing. -/
def TypeIdHasher.write (h : TypeIdHasher) (bytes : List Nat) : Except String TypeIdHasher :=
  Except.error ("This TypeIdHasher can only handle u64s, not " ++ toString bytes)

/-- `Hasher::write_u64(&mut self, i)`: `self.0 = i` (the argument is a
`u64`, hence reduced modulo `2^64`). -/
def TypeIdHasher.writeU64 (h : TypeIdHasher) (i : Nat) : TypeIdHasher :=
  ⟨i % 2 ^ 64⟩

/-- `Hasher::finish(&self)`: `self.0`. -/
def TypeIdHasher.finish (h : TypeIdHasher) : Nat :=
  h.state

/-- One input event of a hashing session: either a `write_u64` call or a
`write` call with raw bytes. -/
inductive HashInput where
  | u64 (i : Nat)
  | bytes (bs : List Nat)

/-- Feed one input to the hasher; a `write` call is fatal. -/
def TypeIdHasher.step (h : TypeIdHasher) : HashInput → Except String TypeIdHasher
  | HashInput.u64 i => Except.ok (h.writeU64 i)
  | HashInput.bytes bs => h.write bs

/-- Feed a list of inputs to the hasher, stopping at the first fatal call. -/
def runInputs (h : TypeIdHasher) : List HashInput → Except String TypeIdHasher
  | [] => Except.ok h
  | input :: rest =>
    match TypeIdHasher.step h input with
    | Except.ok h₂ => runInputs h₂ rest
    | Except.error e => Except.error e

/-- A whole hashing session: a fresh default hasher, the given inputs, then
`finish`. -/
def runSession (inputs : List HashInput) : Except String Nat :=
  match runInputs TypeIdHasher.default inputs with
  | Except.ok h => Except.ok h.finish
  | Except.error e => Except.error e

/-- Modelled from the spec: what the store's public operations feed the
hasher.  Every public operation hashes only map keys, every key is a
`TypeId`, and hashing a `TypeId` issues exactly one `write_u64` of the
64-bit identity token (the `Hash` impl of `TypeId` and the `HashMap`
hashing path live in the standard library, outside this repository's
sources). -/
def publicKeySession (token : Nat) : List HashInput :=
  [HashInput.u64 token]

/-- A small concrete universe used to instantiate the theorems: two
concrete types (codes `true` and `false`) with tokens `1` and `0`. -/
@[reducible] def demoU : TypeUniverse where
  Code := Bool
  interp := fun _ => Nat
  typeIdOf := fun c => if c then 1 else 0
  token_inj := by decide

theorem downcast_mk {U : TypeUniverse} (c : U.Code) (v : U.interp c) :
    (Boxed.mk c v).downcast c = some v := by
  unfold Boxed.downcast
  rw [dif_pos rfl]

theorem downcast_isSome_of_typeId_eq {U : TypeUniverse} (b : Boxed U) (c : U.Code)
    (h : U.typeIdOf b.code = U.typeIdOf c) : (b.downcast c).isSome = true := by
  unfold Boxed.downcast
  rw [dif_pos h]
  rfl

theorem listInsert_cons_self {α : Type} {k : Nat} {v v₂ : α} {l : List (Nat × α)} :
    listInsert k v ((k, v₂) :: l) = (k, v) :: l := by
  simp [listInsert]

theorem listInsert_cons_ne {α : Type} {k k₂ : Nat} {v v₂ : α} {l : List (Nat × α)}
    (h : k ≠ k₂) : listInsert k v ((k₂, v₂) :: l) = (k₂, v₂) :: listInsert k v l := by
  simp [listInsert, h]

theorem listLookup_cons_self {α : Type} {k : Nat} {v : α} {l : List (Nat × α)} :
    listLookup k ((k, v) :: l) = some v := by
  simp [listLookup]

theorem listLookup_cons_ne {α : Type} {k k₂ : Nat} {v : α} {l : List (Nat × α)}
    (h : k ≠ k₂) : listLookup k ((k₂, v) :: l) = listLookup k l := by
  simp [listLookup, h]

theorem listRemove_cons_self {α : Type} {k : Nat} {v : α} {l : List (Nat × α)} :
    listRemove k ((k, v) :: l) = (some v, l) := by
  simp [listRemove]

theorem listRemove_cons_ne {α : Type} {k k₂ : Nat} {v : α} {l : List (Nat × α)}
    (h : k ≠ k₂) :
    listRemove k ((k₂, v) :: l) = ((listRemove k l).1, (k₂, v) :: (listRemove k l).2) := by
  simp [listRemove, h]

theorem listUpdate_cons_self {α : Type} {k : Nat} {f : α → α} {v : α} {l : List (Nat × α)} :
    listUpdate k f ((k, v) :: l) = (k, f v) :: l := by
  simp [listUpdate]

theorem listUpdate_cons_ne {α : Type} {k k₂ : Nat} {f : α → α} {v : α} {l : List (Nat × α)}
    (h : k ≠ k₂) : listUpdate k f ((k₂, v) :: l) = (k₂, v) :: listUpdate k f l := by
  simp [listUpdate, h]

theorem listLookup_listInsert_self {α : Type} (k : Nat) (v : α) (l : List (Nat × α)) :
    listLookup k (listInsert k v l) = some v := by
  induction l with
  | nil => simp [listInsert, listLookup]
  | cons p rest ih =>
    obtain ⟨k₂, v₂⟩ := p
    by_cases h : k = k₂
    · simp [listInsert, h, listLookup]
    · simp [listInsert, h, listLookup, ih]

theorem listLookup_listInsert_ne {α : Type} (k k₂ : Nat) (v : α) (l : List (Nat × α))
    (h : k ≠ k₂) : listLookup k₂ (listInsert k v l) = listLookup k₂ l := by
  induction l with
  | nil => simp [listInsert, listLookup, Ne.symm h]
  | cons p rest ih =>
    obtain ⟨k₃, v₃⟩ := p
    by_cases h₃ : k = k₃
    · subst h₃
      simp [listInsert, listLookup, Ne.symm h]
    · by_cases h₄ : k₂ = k₃
      · simp [listInsert, h₃, listLookup, h₄]
      · simp [listInsert, h₃, listLookup, h₄, ih]

theorem listContainsKey_eq_isSome_listLookup {α : Type} (k : Nat) (l : List (Nat × α)) :
    listContainsKey k l = (listLookup k l).isSome := by
  induction l with
  | nil => rfl
  | cons p rest ih =>
    obtain ⟨k₂, v⟩ := p
    by_cases h : k = k₂
    · simp [listContainsKey, listLookup, h]
    · have hne : (k₂ == k) = false := by
        simpa using Ne.symm h
      simp only [listContainsKey, List.any_cons, listLookup, if_neg h] at ih ⊢
      simp only [hne, Bool.false_or]
      exact ih

theorem listLookup_mem {α : Type} {k : Nat} {l : List (Nat × α)} {v : α}
    (h : listLookup k l = some v) : (k, v) ∈ l := by
  induction l with
  | nil => simp [listLookup] at h
  | cons p rest ih =>
    obtain ⟨k₂, v₂⟩ := p
    by_cases h₂ : k = k₂
    · subst h₂
      rw [listLookup, if_pos rfl, Option.some.injEq] at h
      subst h
      exact List.mem_cons_self _ _
    · rw [listLookup, if_neg h₂] at h
      exact List.mem_cons_of_mem _ (ih h)

theorem listRemove_fst_eq_listLookup {α : Type} (k : Nat) (l : List (Nat × α)) :
    (listRemove k l).1 = listLookup k l := by
  induction l with
  | nil => rfl
  | cons p rest ih =>
    obtain ⟨k₂, v⟩ := p
    by_cases h : k = k₂
    · simp [listRemove, listLookup, h]
    · simp [listRemove, listLookup, h, ih]

theorem listRemove_fst_listInsert_self {α : Type} (k : Nat) (v : α) (l : List (Nat × α)) :
    (listRemove k (listInsert k v l)).1 = some v := by
  rw [listRemove_fst_eq_listLookup, listLookup_listInsert_self]

theorem keyCount_cons {α : Type} (k k₂ : Nat) (v : α) (l : List (Nat × α)) :
    keyCount k ((k₂, v) :: l) = keyCount k l + if k₂ = k then 1 else 0 := by
  simp [keyCount, List.countP_cons]

theorem keyCount_listInsert_self {α : Type} (k : Nat) (v : α) (l : List (Nat × α))
    (h : keyCount k l ≤ 1) : keyCount k (listInsert k v l) = 1 := by
  induction l with
  | nil => simp [listInsert, keyCount, List.countP_cons]
  | cons p rest ih =>
    obtain ⟨k₂, v₂⟩ := p
    rw [keyCount_cons] at h
    by_cases h₂ : k = k₂
    · subst h₂
      rw [if_pos rfl] at h
      rw [listInsert_cons_self, keyCount_cons, if_pos rfl]
      omega
    · rw [if_neg (Ne.symm h₂)] at h
      rw [listInsert_cons_ne h₂, keyCount_cons, if_neg (Ne.symm h₂)]
      have := ih (by omega)
      omega

theorem keyCount_listRemove_snd {α : Type} (k : Nat) (l : List (Nat × α)) :
    keyCount k (listRemove k l).2 = keyCount k l - 1 := by
  induction l with
  | nil => rfl
  | cons p rest ih =>
    obtain ⟨k₂, v⟩ := p
    by_cases h : k = k₂
    · subst h
      rw [listRemove_cons_self]
      show keyCount k rest = keyCount k ((k, v) :: rest) - 1
      rw [keyCount_cons, if_pos rfl]
      omega
    · rw [listRemove_cons_ne h]
      show keyCount k ((k₂, v) :: (listRemove k rest).2) = keyCount k ((k₂, v) :: rest) - 1
      rw [keyCount_cons, keyCount_cons, if_neg (Ne.symm h)]
      omega

theorem listLookup_eq_none_of_keyCount_zero {α : Type} {k : Nat} {l : List (Nat × α)}
    (h : keyCount k l = 0) : listLookup k l = none := by
  induction l with
  | nil => rfl
  | cons p rest ih =>
    obtain ⟨k₂, v⟩ := p
    rw [keyCount_cons] at h
    by_cases h₂ : k = k₂
    · subst h₂
      rw [if_pos rfl] at h
      exact absurd h (by omega)
    · rw [if_neg (Ne.symm h₂), Nat.add_zero] at h
      rw [listLookup_cons_ne h₂]
      exact ih h

theorem listUpdate_of_listLookup_none {α : Type} {k : Nat} (f : α → α) {l : List (Nat × α)}
    (h : listLookup k l = none) : listUpdate k f l = l := by
  induction l with
  | nil => rfl
  | cons p rest ih =>
    obtain ⟨k₂, v⟩ := p
    by_cases h₂ : k = k₂
    · subst h₂
      rw [listLookup_cons_self] at h
      exact absurd h (by simp)
    · rw [listLookup_cons_ne h₂] at h
      rw [listUpdate_cons_ne h₂, ih h]

theorem listLookup_listUpdate_self {α : Type} (k : Nat) (f : α → α) (l : List (Nat × α)) :
    listLookup k (listUpdate k f l) = (listLookup k l).map f := by
  induction l with
  | nil => rfl
  | cons p rest ih =>
    obtain ⟨k₂, v⟩ := p
    by_cases h : k = k₂
    · simp [listUpdate, listLookup, h]
    · simp [listUpdate, listLookup, h, ih]

theorem invMap_listInsert {U : TypeUniverse} {l : List (Nat × Boxed U)} {k : Nat}
    {b : Boxed U} (hl : InvMap l) (hb : k = U.typeIdOf b.code) :
    InvMap (listInsert k b l) := by
  induction l with
  | nil =>
    intro p hp
    simp only [listInsert, List.mem_singleton] at hp
    subst hp
    exact hb
  | cons q rest ih =>
    obtain ⟨k₂, v₂⟩ := q
    have hrest : InvMap rest := fun p hp => hl p (List.mem_cons_of_mem _ hp)
    by_cases h₂ : k = k₂
    · subst h₂
      rw [listInsert_cons_self]
      intro p hp
      rcases List.mem_cons.mp hp with h₃ | h₃
      · subst h₃
        exact hb
      · exact hrest p h₃
    · rw [listInsert_cons_ne h₂]
      intro p hp
      rcases List.mem_cons.mp hp with h₃ | h₃
      · subst h₃
        exact hl _ (List.mem_cons_self _ _)
      · exact ih hrest p h₃

theorem invMap_listRemove_snd {U : TypeUniverse} {l : List (Nat × Boxed U)} (k : Nat)
    (hl : InvMap l) : InvMap (listRemove k l).2 := by
  induction l with
  | nil => exact hl
  | cons q rest ih =>
    obtain ⟨k₂, v₂⟩ := q
    have hrest : InvMap rest := fun p hp => hl p (List.mem_cons_of_mem _ hp)
    by_cases h₂ : k = k₂
    · subst h₂
      rw [listRemove_cons_self]
      exact hrest
    · rw [listRemove_cons_ne h₂]
      intro p hp
      rcases List.mem_cons.mp hp with h₃ | h₃
      · subst h₃
        exact hl _ (List.mem_cons_self _ _)
      · exact ih hrest p h₃

theorem invMap_listUpdate {U : TypeUniverse} {l : List (Nat × Boxed U)} {k : Nat}
    {f : Boxed U → Boxed U} (hl : InvMap l)
    (hf : ∀ b : Boxed U, U.typeIdOf b.code = k → U.typeIdOf (f b).code = k) :
    InvMap (listUpdate k f l) := by
  induction l with
  | nil => exact hl
  | cons q rest ih =>
    obtain ⟨k₂, v₂⟩ := q
    have hrest : InvMap rest := fun p hp => hl p (List.mem_cons_of_mem _ hp)
    by_cases h₂ : k = k₂
    · subst h₂
      rw [listUpdate_cons_self]
      intro p hp
      rcases List.mem_cons.mp hp with h₃ | h₃
      · subst h₃
        have h₄ : U.typeIdOf v₂.code = k := (hl (k, v₂) (List.mem_cons_self _ _)).symm
        exact (hf v₂ h₄).symm
      · exact hrest p h₃
    · rw [listUpdate_cons_ne h₂]
      intro p hp
      rcases List.mem_cons.mp hp with h₃ | h₃
      · subst h₃
        exact hl _ (List.mem_cons_self _ _)
      · exact ih hrest p h₃

theorem reachable_inv {U : TypeUniverse} {s : TypeStore U} (h : Reachable s) : s.Inv := by
  induction h with
  | new => exact fun p hp => absurd hp (List.not_mem_nil p)
  | insert c v hs ih => exact invMap_listInsert ih rfl
  | remove c hs ih => exact invMap_listRemove_snd _ ih
  | clear hs ih => exact fun p hp => absurd hp (List.not_mem_nil p)
  | writeMut c w hs ih =>
    refine invMap_listUpdate ih ?_
    intro b hb
    by_cases hd : (b.downcast c).isSome = true
    · rw [if_pos hd]
    · rw [if_neg hd]
      exact hb

/-- Claim C1: for every type `T` and every value `v : T`, after `insert(v)`
on a store, `get::<T>()` returns a value equal to `v` and `contains::<T>()`
returns `true`. -/
theorem c1_insert_get_contains (U : TypeUniverse) (s : TypeStore U) (c : U.Code)
    (v : U.interp c) :
    (s.insert c v).get c = some v ∧ (s.insert c v).contains c = true := by
  constructor
  · simp only [TypeStore.get, TypeStore.insert]
    rw [listLookup_listInsert_self]
    exact downcast_mk c v
  · simp only [TypeStore.contains, TypeStore.insert]
    rw [listContainsKey_eq_isSome_listLookup, listLookup_listInsert_self]
    rfl

/-- Claim C2: `insert(v)` followed by `remove::<T>()` returns `Some(v)`
equal to the inserted value, and a second `remove::<T>()` immediately
after returns `None`. -/
theorem c2_remove_round_trip (U : TypeUniverse) (s : TypeStore U) (c : U.Code)
    (v : U.interp c) (hwf : s.WF) :
    ((s.insert c v).remove c).1 = some v ∧
      ((((s.insert c v).remove c).2).remove c).1 = none := by
  constructor
  · simp only [TypeStore.remove, TypeStore.insert]
    rw [listRemove_fst_listInsert_self]
    exact downcast_mk c v
  · simp only [TypeStore.remove, TypeStore.insert]
    rw [listRemove_fst_eq_listLookup, listLookup_eq_none_of_keyCount_zero]
    · rfl
    · rw [keyCount_listRemove_snd, keyCount_listInsert_self _ _ _ (hwf _)]

/-- Witness for C2 on the concrete universe: insert `5` at type `true`
into the empty store, remove it twice. -/
theorem c2_remove_round_trip_witness :
    (TypeStore.new : TypeStore demoU).WF ∧
      (((TypeStore.new : TypeStore demoU).insert true 5).remove true).1 = some 5 ∧
      ((((TypeStore.new : TypeStore demoU).insert true 5).remove true).2.remove true).1 =
        none := by
  have hwf : (TypeStore.new : TypeStore demoU).WF := fun k => Nat.zero_le 1
  exact ⟨hwf, (c2_remove_round_trip demoU TypeStore.new true 5 hwf).1,
    (c2_remove_round_trip demoU TypeStore.new true 5 hwf).2⟩

/-- Claim C3: on every store reachable through the public API, whenever a
slot for `T` is found (`contains::<T>()` is true), the checked downcast of
the accessors succeeds: `get::<T>()` and `get_mut::<T>()` return `Some`,
never `None`. -/
theorem c3_downcast_succeeds (U : TypeUniverse) (s : TypeStore U) (c : U.Code)
    (hr : Reachable s) (hc : s.contains c = true) :
    (s.get c).isSome = true ∧ (s.getMut c).isSome = true := by
  have hinv := reachable_inv hr
  rw [TypeStore.contains, listContainsKey_eq_isSome_listLookup] at hc
  obtain ⟨b, hb⟩ := Option.isSome_iff_exists.mp hc
  have htok : U.typeIdOf b.code = U.typeIdOf c :=
    (hinv (U.typeIdOf c, b) (listLookup_mem hb)).symm
  constructor
  · rw [TypeStore.get, hb]
    exact downcast_isSome_of_typeId_eq b c htok
  · rw [TypeStore.getMut, hb]
    exact downcast_isSome_of_typeId_eq b c htok

/-- Witness for C3: the store holding `5` at type `true` is reachable,
contains type `true`, and both accessors return `Some`. -/
theorem c3_downcast_succeeds_witness :
    Reachable ((TypeStore.new : TypeStore demoU).insert true 5) ∧
      ((TypeStore.new : TypeStore demoU).insert true 5).contains true = true ∧
      (((TypeStore.new : TypeStore demoU).insert true 5).get true).isSome = true ∧
      (((TypeStore.new : TypeStore demoU).insert true 5).getMut true).isSome = true := by
  have hr : Reachable ((TypeStore.new : TypeStore demoU).insert true 5) :=
    Reachable.insert true 5 Reachable.new
  have hc : ((TypeStore.new : TypeStore demoU).insert true 5).contains true = true := by
    decide
  exact ⟨hr, hc, (c3_downcast_succeeds demoU _ true hr hc).1,
    (c3_downcast_succeeds demoU _ true hr hc).2⟩

/-- Claim C4: inserting `v₁ : T` and then `v₂ : T` leaves exactly one slot
for `T` in the store, and `get::<T>()` then yields `v₂`: the first value
has been replaced, not duplicated. -/
theorem c4_insert_overwrite (U : TypeUniverse) (s : TypeStore U) (c : U.Code)
    (v₁ v₂ : U.interp c) (hwf : s.WF) :
    ((s.insert c v₁).insert c v₂).slotCount c = 1 ∧
      ((s.insert c v₁).insert c v₂).get c = some v₂ := by
  constructor
  · show keyCount (U.typeIdOf c) (listInsert _ _ (listInsert _ _ s.map)) = 1
    apply keyCount_listInsert_self
    rw [keyCount_listInsert_self _ _ _ (hwf _)]
  · simp only [TypeStore.get, TypeStore.insert]
    rw [listLookup_listInsert_self]
    exact downcast_mk c v₂

/-- Witness for C4: inserting `5` then `7` at type `true` into the empty
store leaves one slot and `get` yields `7`. -/
theorem c4_insert_overwrite_witness :
    (TypeStore.new : TypeStore demoU).WF ∧
      (((TypeStore.new : TypeStore demoU).insert true 5).insert true 7).slotCount true = 1 ∧
      (((TypeStore.new : TypeStore demoU).insert true 5).insert true 7).get true =
        some 7 := by
  have hwf : (TypeStore.new : TypeStore demoU).WF := fun k => Nat.zero_le 1
  exact ⟨hwf, (c4_insert_overwrite demoU TypeStore.new true 5 7 hwf).1,
    (c4_insert_overwrite demoU TypeStore.new true 5 7 hwf).2⟩

/-- Claim C5: inserting a value of type `T` leaves `get::<U>()` unchanged
for every type `U` distinct from `T` (frame property of `insert`). -/
theorem c5_type_isolation (U : TypeUniverse) (s : TypeStore U) (c u : U.Code)
    (v : U.interp c) (h : c ≠ u) : (s.insert c v).get u = s.get u := by
  have htok : U.typeIdOf c ≠ U.typeIdOf u := fun h₂ => h (U.token_inj c u h₂)
  simp only [TypeStore.get, TypeStore.insert]
  rw [listLookup_listInsert_ne _ _ _ _ htok]

/-- Witness for C5: inserting at type `true` does not change the value
stored at the distinct type `false`. -/
theorem c5_type_isolation_witness :
    true ≠ false ∧
      (((TypeStore.new : TypeStore demoU).insert false 9).insert true 5).get false =
        ((TypeStore.new : TypeStore demoU).insert false 9).get false :=
  ⟨by decide,
    c5_type_isolation demoU ((TypeStore.new : TypeStore demoU).insert false 9) true false 5
      (by decide)⟩

/-- Claim C6: an empty store — freshly created by `new()` or the result of
`clear()` — satisfies `is_empty() == true`, and for every type `T`,
`contains::<T>()` is false and `get::<T>()` returns `None`. -/
theorem c6_empty_store (U : TypeUniverse) (s : TypeStore U) (c : U.Code) :
    ((TypeStore.new : TypeStore U).isEmpty = true ∧
        (TypeStore.new : TypeStore U).contains c = false ∧
        (TypeStore.new : TypeStore U).get c = none) ∧
      (s.clear.isEmpty = true ∧ s.clear.contains c = false ∧ s.clear.get c = none) :=
  ⟨⟨rfl, rfl, rfl⟩, ⟨rfl, rfl, rfl⟩⟩

/-- Claim C7: a modification written through the reference returned by
`get_mut::<T>()` is observed by a subsequent `get::<T>()` on the same
store. -/
theorem c7_mutation_visibility (U : TypeUniverse) (s : TypeStore U) (c : U.Code)
    (v w : U.interp c) (h : s.getMut c = some v) : (s.writeMut c w).get c = some w := by
  rw [TypeStore.getMut] at h
  obtain ⟨b, hb, hd⟩ :
      ∃ b, listLookup (U.typeIdOf c) s.map = some b ∧ b.downcast c = some v := by
    cases hl : listLookup (U.typeIdOf c) s.map with
    | none =>
      rw [hl] at h
      exact absurd h (by simp)
    | some b =>
      rw [hl] at h
      exact ⟨b, rfl, h⟩
  simp only [TypeStore.get, TypeStore.writeMut]
  rw [listLookup_listUpdate_self, hb]
  show (if (b.downcast c).isSome = true then Boxed.mk c w else b).downcast c = some w
  rw [if_pos (by rw [hd]; rfl)]
  exact downcast_mk c w

/-- Witness for C7: overwrite the stored `5` with `7` through the mutable
reference; `get` then observes `7`. -/
theorem c7_mutation_visibility_witness :
    ((TypeStore.new : TypeStore demoU).insert true 5).getMut true = some 5 ∧
      (((TypeStore.new : TypeStore demoU).insert true 5).writeMut true 7).get true =
        some 7 := by
  have h : ((TypeStore.new : TypeStore demoU).insert true 5).getMut true = some 5 := by
    decide
  exact ⟨h, c7_mutation_visibility demoU _ true 5 7 h⟩

/-- Claim C8: a hashing session that receives exactly one `write_u64(i)`
and then `finish()` returns the 64-bit value `i` unchanged. -/
theorem c8_hasher_identity (i : Nat) (h : i < 2 ^ 64) :
    runSession [HashInput.u64 i] = Except.ok i := by
  show Except.ok (i % 2 ^ 64) = Except.ok i
  rw [Nat.mod_eq_of_lt h]

/-- Witness for C8 at the concrete input `5`. -/
theorem c8_hasher_identity_witness :
    5 < 2 ^ 64 ∧ runSession [HashInput.u64 5] = Except.ok 5 :=
  ⟨by decide, c8_hasher_identity 5 (by decide)⟩

/-- Claim C9: feeding the hasher arbitrary byte data through `write` fails
fatally for every hasher state and every byte sequence, while the hashing
sessions issued by the store's public API — exactly one `write_u64` of the
type-identity token per key — always succeed, so the fatal path is never
reached through the public API. -/
theorem c9_write_fatal_unreachable :
    (∀ (h : TypeIdHasher) (bs : List Nat), ∃ msg, h.write bs = Except.error msg) ∧
      (∀ t : Nat, ∃ v, runSession (publicKeySession t) = Except.ok v) :=
  ⟨fun _ bs => ⟨"This TypeIdHasher can only handle u64s, not " ++ toString bs, rfl⟩,
    fun t => ⟨t % 2 ^ 64, rfl⟩⟩

/-- Claim C10: on a store with no slot for `T`, `get_mut::<T>()` returns
`None` and leaves the store entirely unchanged: no entry is created and
the (nonexistent) mutable reference cannot change any slot or the store's
emptiness status. -/
theorem c10_get_mut_absent_frame (U : TypeUniverse) (s : TypeStore U) (c : U.Code)
    (w : U.interp c) (h : s.contains c = false) :
    s.getMut c = none ∧ s.writeMut c w = s := by
  rw [TypeStore.contains, listContainsKey_eq_isSome_listLookup] at h
  have hnone : listLookup (U.typeIdOf c) s.map = none := by
    cases hl : listLookup (U.typeIdOf c) s.map with
    | none => rfl
    | some b =>
      rw [hl] at h
      exact absurd h (by simp)
  constructor
  · rw [TypeStore.getMut, hnone]
    rfl
  · rw [TypeStore.writeMut, listUpdate_of_listLookup_none _ hnone]

/-- Witness for C10: the store holding only type `true` has no slot for
type `false`; `get_mut::<false>()` is `None` and writing is a no-op. -/
theorem c10_get_mut_absent_frame_witness :
    ((TypeStore.new : TypeStore demoU).insert true 5).contains false = false ∧
      ((TypeStore.new : TypeStore demoU).insert true 5).getMut false = none ∧
      ((TypeStore.new : TypeStore demoU).insert true 5).writeMut false 7 =
        (TypeStore.new : TypeStore demoU).insert true 5 := by
  have h : ((TypeStore.new : TypeStore demoU).insert true 5).contains false = false := by
    decide
  exact ⟨h, (c10_get_mut_absent_frame demoU _ false 7 h).1,
    (c10_get_mut_absent_frame demoU _ false 7 h).2⟩

end TypeStoreModel
